import Mathlib

/-!
Verification of the download-orchestration core of `src/VideoDownloader.py`.

The Python source is shallowly embedded below.  Machine conventions:

* Python strings are `String` / `List Char`; `str.strip()` is modelled with
  `Char.isWhitespace` (the source only ever strips ASCII whitespace in the
  payloads at stake).
* Python floats appearing in this program are modelled exactly: `human_size`
  only ever divides by 1024 (exact in binary floating point for inputs below
  2^53, which covers every value the claims mention), and `float(<string>)`
  in the progress hook is modelled as the exact decimal value of the literal
  (`PyFloat`), which agrees with the float pipeline on every integer-valued
  comparison the claims make.  `inf`/`nan`/underscored literals are not
  modelled; in the source they never produce a progress event either
  (`int(float("inf"))` raises and is swallowed by the bare `except`).
* Fallible dictionary lookups become `Option`; Python truthiness of strings
  and numbers is made explicit at each use site.
* Filesystem existence (`Path.exists`) is a parameter `fs : String → Bool`.
-/

namespace VideoDownloader

/-! ## Generic character/list helpers used by the embedding -/

/-- Whitespace test backing Python's `str.strip()`. -/
def wsChar (c : Char) : Bool := c.isWhitespace

/-- The percent sign, for `str.strip("%")`. -/
def pctChar (c : Char) : Bool := c == '%'

/-- Strip characters satisfying `p` from both ends of a list
(Python `str.strip` / `str.strip(chars)` semantics). -/
def trimBy (p : Char → Bool) (l : List Char) : List Char :=
  ((l.dropWhile p).reverse.dropWhile p).reverse

/-- Decimal numeral value of a digit list. -/
def digitsVal (l : List Char) : Nat :=
  l.foldl (fun a c => a * 10 + (c.toNat - 48)) 0

/-! ## `human_size` (source lines 24–31)

```python
def human_size(n: int) -> str:
    step = 1024.0
    for unit in ("B", "KB", "MB", "GB", "TB"):
        if n < step:
            return f"{n:.0f} {unit}"
        n /= step
    return f"{n:.0f} PB"
```

After `k` loop iterations the float `n` holds exactly `n₀ / 1024^k`
(division by `1024 = 2^10` only shifts the exponent), so the comparison
`n < 1024` is exactly `n₀ < 1024^(k+1)` and the `.0f` format prints the
round-half-even integer nearest to `n₀ / 1024^k`.  `fmtDiv` computes that
rounding with exact natural arithmetic. -/

/-- Round `n / 1024^k` to the nearest integer, ties to even
(the value `f"{x:.0f}"` prints for the exact dyadic float `x = n / 1024^k`). -/
def fmtDiv (n k : Nat) : Nat :=
  let d := 1024 ^ k
  let q := n / d
  let r := n % d
  if 2 * r < d then q
  else if d < 2 * r then q + 1
  else if q % 2 = 0 then q else q + 1

/-- The unit-selection loop of `human_size`; `k` counts divisions so far. -/
def human_size_go (n : Nat) : Nat → List String → String
  | k, [] => toString (fmtDiv n k) ++ " PB"
  | k, u :: rest =>
    if n < 1024 ^ (k + 1) then toString (fmtDiv n k) ++ " " ++ u
    else human_size_go n (k + 1) rest

/-- `human_size` from the source (exact for `n < 2^53`; see module comment). -/
def human_size (n : Nat) : String :=
  human_size_go n 0 ["B", "KB", "MB", "GB", "TB"]

/-! ## `sanitize_filename` (source lines 34–37)

```python
def sanitize_filename(name: str) -> str:
    cleaned = re.sub(r'[\\/*?:"<>|]+', "_", name).strip()
    return cleaned or "video"
```

The regex replaces every maximal run of forbidden characters by a single
underscore (`replaceRunsAux` carries the "inside a run" flag). -/

/-- The character class `[\\/*?:"<>|]` of the source regex. -/
def forbiddenChar (c : Char) : Bool :=
  c == '\\' || c == '/' || c == '*' || c == '?' || c == ':' ||
  c == '"' || c == '<' || c == '>' || c == '|'

/-- `re.sub(r'[\\/*?:"<>|]+', "_", ·)`: each maximal forbidden run becomes
one `'_'`.  The boolean flag records whether the previous kept character of
the input was forbidden (i.e. we are inside a run already replaced). -/
def replaceRunsAux : Bool → List Char → List Char
  | _, [] => []
  | true, c :: cs =>
    if forbiddenChar c then replaceRunsAux true cs
    else c :: replaceRunsAux false cs
  | false, c :: cs =>
    if forbiddenChar c then '_' :: replaceRunsAux true cs
    else c :: replaceRunsAux false cs

/-- `sanitize_filename` from the source. -/
def sanitize_filename (s : String) : String :=
  let cleaned := trimBy wsChar (replaceRunsAux false s.toList)
  if cleaned.isEmpty then "video" else String.mk cleaned

/-! ## `os.path.splitext` and `force_mp4_name` (source lines 40–47)

`posixpath.splitext(p)` splits at the last `'.'` that lies after the last
`'/'`, unless every character between that `'/'` (or the start) and the
dot is itself a dot (the "leading dots name no extension" rule):

```python
sepIndex = p.rfind('/'); dotIndex = p.rfind('.')
if dotIndex > sepIndex:
    filenameIndex = sepIndex + 1
    while filenameIndex < dotIndex:
        if p[filenameIndex] != '.':
            return p[:dotIndex], p[dotIndex:]
        filenameIndex += 1
return p, ''
```

The embedding scans from the right: drop the trailing extension letters;
if the scan stopped on a `'.'` and the characters between it and the last
`'/'` contain a non-dot, split there. -/

/-- Characters that terminate the right-to-left extension scan. -/
def notDotSep (c : Char) : Bool := !(c == '.' || c == '/')

/-- `os.path.splitext` on a path (POSIX separator `'/'`; the source only
ever applies it to sanitized names or engine paths, which contain no
backslash separators relevant to the claims). -/
def splitext (l : List Char) : List Char × List Char :=
  let r := l.reverse
  match r.dropWhile notDotSep with
  | [] => (l, [])
  | c :: rest2 =>
    if c == '.' then
      if (rest2.takeWhile (fun x => !(x == '/'))).any (fun x => !(x == '.')) then
        (rest2.reverse, '.' :: (r.takeWhile notDotSep).reverse)
      else (l, [])
    else (l, [])

/-- `force_mp4_name` from the source:
`base = sanitize_filename(base); stem, _ = os.path.splitext(base);
return f"{stem}.mp4"`. -/
def force_mp4_name (s : String) : String :=
  let base := sanitize_filename s
  String.mk ((splitext base.toList).1 ++ ".mp4".toList)

/-- The splitext stem of the sanitized name (used to phrase when the
second application of `force_mp4_name` is a fixed point). -/
def stemOf (s : String) : List Char :=
  (splitext (sanitize_filename s).toList).1

/-! ## Events (source line 20)

`Event = Tuple[str, str]` with kind in
`("progress"|"status"|"log"|"done"|"error")`; the consumer dispatches on
exactly these five kinds, so the pairs are embedded as a closed inductive
with the payload string. -/

inductive Event where
  | status (payload : String)
  | progress (payload : String)
  | log (payload : String)
  | done (payload : String)
  | error (payload : String)
deriving DecidableEq, Repr

def isDone : Event → Bool
  | .done _ => true
  | _ => false

def isError : Event → Bool
  | .error _ => true
  | _ => false

def isLog : Event → Bool
  | .log _ => true
  | _ => false

def isProgressEv : Event → Bool
  | .progress _ => true
  | _ => false

/-! ## Python `float(<string>)` (used by the hook, source line 77)

`PyFloat` is the exact decimal value `mant * 10 ^ exp` of an accepted
literal: optional sign, digits with optional fraction, optional exponent,
surrounded by optional whitespace.  See the module comment for the
(claim-irrelevant) corner cases this elides. -/

structure PyFloat where
  mant : Int
  exp : Int
deriving DecidableEq, Repr

/-- Parse a Python `float()` argument; `none` models the `ValueError`
swallowed by the hook's bare `except`. -/
def parseFloatStr (l0 : List Char) : Option PyFloat :=
  let l := trimBy wsChar l0
  let sl : Int × List Char :=
    match l with
    | '+' :: r => (1, r)
    | '-' :: r => (-1, r)
    | r => (1, r)
  let ipart := sl.2.takeWhile Char.isDigit
  let l2 := sl.2.drop ipart.length
  let fl : List Char × List Char :=
    match l2 with
    | '.' :: r => (r.takeWhile Char.isDigit, r.drop (r.takeWhile Char.isDigit).length)
    | r => ([], r)
  if ipart.isEmpty && fl.1.isEmpty then none
  else
    let mant : Int := sl.1 * Int.ofNat (digitsVal ipart * 10 ^ fl.1.length + digitsVal fl.1)
    match fl.2 with
    | [] => some { mant := mant, exp := -(Int.ofNat fl.1.length) }
    | c :: r =>
      if c == 'e' || c == 'E' then
        let es : Int × List Char :=
          match r with
          | '+' :: t => (1, t)
          | '-' :: t => (-1, t)
          | t => (1, t)
        let ed := es.2.takeWhile Char.isDigit
        if ed.isEmpty then none
        else if (es.2.drop ed.length).isEmpty then
          some { mant := mant, exp := es.1 * Int.ofNat (digitsVal ed) - Int.ofNat fl.1.length }
        else none
      else none

/-- Python `int(x)` on a float: truncation toward zero, computed exactly
on the decimal value. -/
def truncPyFloat (v : PyFloat) : Int :=
  if 0 ≤ v.exp then v.mant * Int.ofNat (10 ^ v.exp.toNat)
  else
    if 0 ≤ v.mant then Int.ofNat (v.mant.toNat / 10 ^ (-v.exp).toNat)
    else -Int.ofNat ((-v.mant).toNat / 10 ^ (-v.exp).toNat)

/-! ## The progress hook `Downloader._hook` (source lines 71–89)

```python
status = d.get("status")
if status == "downloading":
    percent_str = (d.get("_percent_str") or "0%").strip()
    try:
        percent = int(float(percent_str.strip("%")))
        self.put(("progress", str(max(0, min(100, percent)))))
    except Exception:
        pass
    downloaded = int(d.get("downloaded_bytes") or 0)
    total = int(d.get("total_bytes") or d.get("total_bytes_estimate") or 0)
    msg = human_size(downloaded)
    if total:
        msg += f" / {human_size(total)}"
    self.put(("log", msg))
elif status == "finished":
    self.put(("progress", "100"))
    self.put(("log", "Постобработка (mp4)…"))
```

The tick dictionary is embedded as a record of the fields the hook reads
(absent key = `none`; a present `None` value behaves identically through
the `or` defaults, so it is also `none`). -/

structure HookTick where
  status : Option String
  _percent_str : Option String
  downloaded_bytes : Option Nat
  total_bytes : Option Nat
  total_bytes_estimate : Option Nat
deriving DecidableEq, Repr

/-- `d.get("_percent_str") or "0%"` — Python truthiness: `None` and `""`
both fall back to `"0%"`. -/
def percentEff : Option String → String
  | none => "0%"
  | some s => if s.isEmpty then "0%" else s

/-- `x or y or 0` on optional byte counts (`0` is falsy). -/
def pyOrNat (a b : Option Nat) : Nat :=
  match a with
  | some n => if n = 0 then b.getD 0 else n
  | none => b.getD 0

/-- The `try`-block of the hook: the zero or one `progress` events a
"downloading" tick emits.  The pipeline is
`int(float(((raw or "0%").strip()).strip("%")))` clamped to `[0,100]`;
a parse failure hits the bare `except: pass` and emits nothing. -/
def percentProgressEvents (o : Option String) : List Event :=
  match parseFloatStr (trimBy pctChar (trimBy wsChar (percentEff o).toList)) with
  | some v => [Event.progress (toString (max 0 (min 100 (truncPyFloat v))).toNat)]
  | none => []

/-- The log line of a "downloading" tick:
`human_size(downloaded)` plus `" / <total>"` when `total` is nonzero. -/
def tickLogMsg (d : HookTick) : String :=
  human_size (d.downloaded_bytes.getD 0) ++
    (if pyOrNat d.total_bytes d.total_bytes_estimate = 0 then ""
     else " / " ++ human_size (pyOrNat d.total_bytes d.total_bytes_estimate))

/-- `Downloader._hook`, as the list of events it `put`s for one tick. -/
def hook (d : HookTick) : List Event :=
  if d.status = some "downloading" then
    percentProgressEvents d._percent_str ++ [Event.log (tickLogMsg d)]
  else if d.status = some "finished" then
    [Event.progress "100", Event.log "Постобработка (mp4)…"]
  else []

/-! ## Metadata path resolution (source lines 118–130)

```python
path = None
if isinstance(info, dict) and info.get("requested_downloads"):
    path = info["requested_downloads"][0].get("filepath")
if not path and isinstance(info, dict):
    path = info.get("_filename")
if not path:
    path = ydl.prepare_filename(info)
...
base, _ext = os.path.splitext(path)
mp4 = Path(base + ".mp4")
return mp4 if mp4.exists() else Path(path)
```

`prepare_filename` is external; its result is the parameter `prepared`.
The filesystem probe `Path.exists` is the parameter `fs`. -/

structure RequestedDownload where
  filepath : Option String
deriving DecidableEq, Repr

structure InfoDict where
  requested_downloads : List RequestedDownload
  _filename : Option String
deriving DecidableEq, Repr

/-- Python truthiness of an optional string (`None` and `""` are falsy). -/
def truthyStr : Option String → Bool
  | none => false
  | some s => !s.isEmpty

/-- `info["requested_downloads"][0].get("filepath")` guarded by the
truthiness of the list (`path` stays `None` when the list is empty). -/
def firstFilepath (info : InfoDict) : Option String :=
  match info.requested_downloads with
  | [] => none
  | e :: _ => e.filepath

/-- The three-step path resolution of `Downloader.download`. -/
def resolve_path (info : InfoDict) (prepared : String) : String :=
  let p0 := firstFilepath info
  let p1 := if truthyStr p0 then p0 else info._filename
  if truthyStr p1 then p1.getD "" else prepared

/-- The `.mp4` sibling: `base + ".mp4"` for `base, _ = splitext(path)`. -/
def siblingMp4 (p : String) : String :=
  String.mk ((splitext p.toList).1 ++ ".mp4".toList)

/-- Extension reconciliation: `mp4 if mp4.exists() else path`. -/
def reconcile (fs : String → Bool) (p : String) : String :=
  if fs (siblingMp4 p) then siblingMp4 p else p

/-- The value `Downloader.download` returns once the engine call has
produced metadata `info` (with `prepared` the `prepare_filename` result
and `fs` the filesystem-existence probe). -/
def download_finalize (fs : String → Bool) (info : InfoDict) (prepared : String) : String :=
  reconcile fs (resolve_path info prepared)

/-! ## The worker thread (source lines 137–147) and `Downloader.download`'s
event emissions.

`download` emits `("status", "Подготовка…")` (line 111) and then the hook
events of each progress tick; on success the worker appends
`("done", str(result))`, and any raised exception becomes a single
`("error", str(e))` after whatever events were already queued. -/

/-- Events `Downloader.download` itself emits before returning. -/
def download_events (ticks : List HookTick) : List Event :=
  Event.status "Подготовка…" :: (ticks.map hook).flatten

/-- Outcome of the engine invocation inside `worker`: either metadata plus
the observed ticks, or an exception (with the events already emitted
before the raise). -/
inductive EngineOutcome where
  | ok (ticks : List HookTick) (info : InfoDict) (prepared : String)
  | fail (emitted : List Event) (msg : String)
deriving Repr

/-- The full event sequence `worker` pushes onto the queue. -/
def worker_model (fs : String → Bool) : EngineOutcome → List Event
  | .ok ticks info prepared =>
    download_events ticks ++ [Event.done (download_finalize fs info prepared)]
  | .fail emitted msg => emitted ++ [Event.error msg]

/-! ## The GUI consumer (source lines 154–291)

Only the state the claims mention is carried: the `_downloading` guard,
the progress-bar value, the transcript of `_log` lines and the window
title.  `_poll_queue` drains the queue and applies each event; the
embedding `apply_event` follows its dispatch verbatim. -/

structure AppState where
  downloading : Bool
  pbValue : Nat
  transcript : List String
  titleText : String
deriving DecidableEq, Repr

/-- Python `int(<string>)`: optional sign and decimal digits, with
surrounding whitespace. -/
def pyParseInt (s : String) : Option Int :=
  let l := trimBy wsChar s.toList
  let sl : Int × List Char :=
    match l with
    | '+' :: r => (1, r)
    | '-' :: r => (-1, r)
    | r => (1, r)
  if !sl.2.isEmpty && sl.2.all Char.isDigit then some (sl.1 * Int.ofNat (digitsVal sl.2))
  else none

/-- One dispatch step of `_poll_queue`. -/
def apply_event (st : AppState) (e : Event) : AppState :=
  match e with
  | .status s =>
    { st with titleText := "Fetch Media — " ++ s, transcript := st.transcript ++ [s] }
  | .progress s =>
    match pyParseInt s with
    | some v => { st with pbValue := (max 0 (min 100 v)).toNat }
    | none => st
  | .log s => { st with transcript := st.transcript ++ [s] }
  | .done p =>
    { st with pbValue := 100,
              transcript := st.transcript ++ ["✅ Готово: " ++ p],
              downloading := false,
              titleText := "Fetch Media — на yt-dlp" }
  | .error m =>
    { st with transcript := st.transcript ++ ["❌ Ошибка: " ++ m],
              downloading := false,
              titleText := "Fetch Media — на yt-dlp" }

/-- Draining the queue: `_poll_queue` applies every pending event in FIFO
order. -/
def drain (st : AppState) (evs : List Event) : AppState :=
  evs.foldl apply_event st

/-! ## `App._start_download` (source lines 227–250) -/

structure DownloadRequest where
  url : String
  outdir : String
  output_name : Option String
deriving DecidableEq, Repr

inductive StartResult where
  | busyRejected
  | emptyUrl
  | started (req : DownloadRequest)
deriving DecidableEq, Repr

/-- `App._start_download`: the busy guard, URL validation, request
normalization and the UI reset before spawning the worker.  The
`messagebox` notices are reflected in the `StartResult`; the worker spawn
is the `started` payload (directory creation is I/O outside the state). -/
def start_download (st : AppState) (urlText outdirText nameText : String) :
    AppState × StartResult :=
  if st.downloading then (st, StartResult.busyRejected)
  else
    let url := urlText.trim
    if url.isEmpty then (st, StartResult.emptyUrl)
    else
      let outdir := if outdirText.trim.isEmpty then "downloads" else outdirText.trim
      let raw := nameText.trim
      let output_name := if raw.isEmpty then none else some (force_mp4_name raw)
      ({ st with pbValue := 0, transcript := [], downloading := true },
       StartResult.started { url := url, outdir := outdir, output_name := output_name })

/-! ## Claim-side definition for C3

The claim (following the spec) says the hook strips *a trailing* `%`;
the source's `str.strip("%")` strips every leading and trailing `%`.
This definition renders the claim's words for comparison. -/

/-- Modelled from the spec: strip one trailing percent sign, as the words
"strip a trailing `%`" describe (the source instead strips `%` from both
ends). -/
def stripOneTrailingPct (l : List Char) : List Char :=
  match l.reverse with
  | '%' :: t => t.reverse
  | _ => l

/-! ## Concrete fixtures used to instantiate the claims -/

/-- A filesystem on which exactly `a/b.mp4` exists. -/
def fsOnlyBMp4 : String → Bool := fun q => q == "a/b.mp4"

/-- Metadata whose first requested download resolves to `a/b.mkv`. -/
def infoMkv : InfoDict :=
  { requested_downloads := [{ filepath := some "a/b.mkv" }], _filename := none }

/-- A "downloading" tick carrying only a percent string. -/
def mkPctTick (o : Option String) : HookTick :=
  { status := some "downloading", _percent_str := o,
    downloaded_bytes := none, total_bytes := none, total_bytes_estimate := none }

def tick150 : HookTick := mkPctTick (some "150%")
def tickNeg5 : HookTick := mkPctTick (some "-5%")
def tickAbc : HookTick := mkPctTick (some "abc%")
def tickPct5050 : HookTick := mkPctTick (some "%50%")
def tickNoPct : HookTick := mkPctTick none

/-- An app state mid-download (busy, with some transcript and progress). -/
def stBusy : AppState :=
  { downloading := true, pbValue := 37, transcript := ["line"],
    titleText := "Fetch Media — x" }

example : human_size 0 = "0 B" := by decide
example : human_size 1023 = "1023 B" := by decide
example : human_size 1024 = "1 KB" := by decide
example : human_size (1024 ^ 2 - 1) = "1024 KB" := by decide
example : human_size (1024 ^ 5) = "1 PB" := by decide
example : sanitize_filename "a/b:c*d" = "a_b_c_d" := by decide
example : sanitize_filename "   " = "video" := by decide
example : force_mp4_name "clip.mkv" = "clip.mp4" := by decide
example : force_mp4_name "" = "video.mp4" := by decide
example : force_mp4_name "." = "..mp4" := by decide
example : force_mp4_name "..mp4" = "..mp4.mp4" := by decide
example : percentProgressEvents (some "150%") = [Event.progress "100"] := by decide
example : percentProgressEvents (some "-5%") = [Event.progress "0"] := by decide
example : percentProgressEvents (some "abc%") = [] := by decide
example : percentProgressEvents none = [Event.progress "0"] := by decide
example : percentProgressEvents (some "%50%") = [Event.progress "50"] := by decide
example : parseFloatStr (stripOneTrailingPct (trimBy wsChar "%50%".toList)) = none := by decide
example : percentProgressEvents (some " 47.6% ") = [Event.progress "47"] := by decide
example : percentProgressEvents (some "1e2%") = [Event.progress "100"] := by decide
example : siblingMp4 "a/b.mkv" = "a/b.mp4" := by decide
example : reconcile (fun q => q == "a/b.mp4") "a/b.mkv" = "a/b.mp4" := by decide
example : reconcile (fun _ => false) "a/b.mkv" = "a/b.mkv" := by decide

/-! ## Helper lemmas -/

theorem mem_replaceRunsAux {c : Char} :
    ∀ (l : List Char) (b : Bool), c ∈ replaceRunsAux b l → forbiddenChar c = false := by
  intro l
  induction l with
  | nil => intro b h; cases b <;> simp [replaceRunsAux] at h
  | cons a t ih =>
    intro b h
    by_cases ha : forbiddenChar a = true
    · cases b with
      | true =>
        simp only [replaceRunsAux, ha, if_true] at h
        exact ih true h
      | false =>
        simp only [replaceRunsAux, ha, if_true, List.mem_cons] at h
        rcases h with rfl | h
        · decide
        · exact ih true h
    · cases b <;>
        · simp [replaceRunsAux, ha] at h
          rcases h with h1 | h1
          · rw [h1]; exact Bool.eq_false_iff.mpr ha
          · exact ih false h1

theorem replaceRunsAux_eq_self :
    ∀ (l : List Char), (∀ c ∈ l, forbiddenChar c = false) → ∀ b, replaceRunsAux b l = l := by
  intro l
  induction l with
  | nil => intro _ b; cases b <;> rfl
  | cons a t ih =>
    intro h b
    have ha : ¬forbiddenChar a = true := by
      rw [h a (List.mem_cons_self a t)]; simp
    cases b <;>
      · simp only [replaceRunsAux, if_neg ha]
        rw [ih (fun c hc => h c (List.mem_cons_of_mem a hc)) false]

theorem trimBy_subset (p : Char → Bool) (l : List Char) : trimBy p l ⊆ l := by
  intro c hc
  simp only [trimBy, List.mem_reverse] at hc
  have h1 : c ∈ (l.dropWhile p).reverse := (List.dropWhile_sublist p).subset hc
  rw [List.mem_reverse] at h1
  exact (List.dropWhile_sublist p).subset h1

theorem head?_dropWhile_false {p : Char → Bool} {l : List Char} {c : Char}
    (h : (l.dropWhile p).head? = some c) : p c = false := by
  have := List.head?_dropWhile_not p l
  rw [h] at this
  exact this

theorem head?_append_left {α : Type} {a b : List α} (h : a ≠ []) :
    (a ++ b).head? = a.head? := by
  cases a with
  | nil => exact absurd rfl h
  | cons x t => rfl

theorem getLast?_append_right {α : Type} (a : List α) {b : List α} (h : b ≠ []) :
    (a ++ b).getLast? = b.getLast? := by
  rw [← List.head?_reverse, ← List.head?_reverse b, List.reverse_append]
  exact head?_append_left (by simpa using h)

theorem trimBy_head? {p : Char → Bool} {l : List Char} {c : Char}
    (h : (trimBy p l).head? = some c) : p c = false := by
  unfold trimBy at h
  set A := l.dropWhile p with hA
  set B := A.reverse.dropWhile p with hB
  have hBne : B ≠ [] := by
    intro hnil
    rw [hnil] at h
    simp at h
  have h1 : B.reverse.head? = B.getLast? := List.head?_reverse B
  have h2 : B.getLast? = A.reverse.getLast? := by
    have hdecomp : A.reverse.takeWhile p ++ B = A.reverse := by
      rw [hB]; exact List.takeWhile_append_dropWhile p A.reverse
    rw [← hdecomp]
    exact (getLast?_append_right _ hBne).symm
  have h3 : A.reverse.getLast? = A.head? := List.getLast?_reverse A
  rw [h1, h2, h3] at h
  exact head?_dropWhile_false (hA ▸ h)

theorem trimBy_reverse_head? {p : Char → Bool} {l : List Char} {c : Char}
    (h : (trimBy p l).reverse.head? = some c) : p c = false := by
  unfold trimBy at h
  rw [List.reverse_reverse] at h
  exact head?_dropWhile_false h

theorem dropWhile_eq_self_of_head {p : Char → Bool} {l : List Char}
    (h : ∀ c, l.head? = some c → p c = false) : l.dropWhile p = l := by
  cases l with
  | nil => rfl
  | cons a t =>
    have ha : p a = false := h a rfl
    simp [List.dropWhile_cons, ha]

theorem trimBy_eq_self {p : Char → Bool} {l : List Char}
    (h1 : ∀ c, l.head? = some c → p c = false)
    (h2 : ∀ c, l.reverse.head? = some c → p c = false) :
    trimBy p l = l := by
  unfold trimBy
  rw [dropWhile_eq_self_of_head h1, dropWhile_eq_self_of_head h2, List.reverse_reverse]

theorem takeWhile_eq_self_of_all {p : Char → Bool} :
    ∀ {l : List Char}, (∀ c ∈ l, p c = true) → l.takeWhile p = l := by
  intro l
  induction l with
  | nil => intro _; rfl
  | cons a t ih =>
    intro h
    rw [List.takeWhile_cons_of_pos (h a (List.mem_cons_self a t))]
    rw [ih (fun c hc => h c (List.mem_cons_of_mem a hc))]

theorem forbiddenChar_no_slash {c : Char} (h : forbiddenChar c = false) :
    (c == '/') = false := by
  cases hc : c == '/' with
  | false => rfl
  | true =>
    exfalso
    unfold forbiddenChar at h
    rw [hc] at h
    simp at h

/-- Characteristic properties of `sanitize_filename`'s output: non-empty,
free of forbidden characters, and trimmed at both ends. -/
theorem sanitize_filename_props (s : String) :
    (sanitize_filename s).toList ≠ [] ∧
    (∀ c ∈ (sanitize_filename s).toList, forbiddenChar c = false) ∧
    (∀ c, (sanitize_filename s).toList.head? = some c → wsChar c = false) ∧
    (∀ c, (sanitize_filename s).toList.reverse.head? = some c → wsChar c = false) := by
  unfold sanitize_filename
  set cleaned := trimBy wsChar (replaceRunsAux false s.toList) with hcl
  cases hemp : cleaned.isEmpty with
  | true => simp only [hemp, if_true]; refine ⟨by decide, by decide, by decide, by decide⟩
  | false =>
    simp only [hemp, Bool.false_eq_true, if_false]
    have htl : (String.mk cleaned).toList = cleaned := rfl
    rw [htl]
    refine ⟨?_, ?_, ?_, ?_⟩
    · intro hnil
      rw [hnil] at hemp
      simp at hemp
    · intro c hc
      exact mem_replaceRunsAux _ false (trimBy_subset wsChar _ (hcl ▸ hc))
    · intro c hc
      exact trimBy_head? (hcl ▸ hc)
    · intro c hc
      exact trimBy_reverse_head? (hcl ▸ hc)

theorem sanitize_filename_eq_self {l : List Char}
    (hne : l ≠ [])
    (hforb : ∀ c ∈ l, forbiddenChar c = false)
    (hhead : ∀ c, l.head? = some c → wsChar c = false)
    (hlast : ∀ c, l.reverse.head? = some c → wsChar c = false) :
    sanitize_filename (String.mk l) = String.mk l := by
  unfold sanitize_filename
  have h1 : (String.mk l).toList = l := rfl
  rw [h1, replaceRunsAux_eq_self l hforb false, trimBy_eq_self hhead hlast]
  simp [List.isEmpty_iff, hne]

/-- Unfolded form of `splitext` for rewriting. -/
theorem splitext_eq (l : List Char) :
    splitext l =
      match l.reverse.dropWhile notDotSep with
      | [] => (l, [])
      | c :: rest2 =>
        if c == '.' then
          if (rest2.takeWhile (fun x => !(x == '/'))).any (fun x => !(x == '.')) then
            (rest2.reverse, '.' :: (l.reverse.takeWhile notDotSep).reverse)
          else (l, [])
        else (l, []) := rfl

theorem splitext_append : ∀ l : List Char, (splitext l).1 ++ (splitext l).2 = l := by
  intro l
  rw [splitext_eq]
  rcases hd : l.reverse.dropWhile notDotSep with _ | ⟨c, rest2⟩
  · simp
  · have key : l.reverse.takeWhile notDotSep ++ (c :: rest2) = l.reverse := by
      rw [← hd]; exact List.takeWhile_append_dropWhile notDotSep l.reverse
    by_cases hc : (c == '.') = true
    · have hc2 : c = '.' := beq_iff_eq.mp hc
      subst hc2
      by_cases hany :
          ((rest2.takeWhile fun x => !(x == '/')).any fun x => !(x == '.')) = true
      · simp only [hc, if_true, hany]
        have h4 : ('.' :: rest2).reverse ++ (l.reverse.takeWhile notDotSep).reverse = l := by
          rw [← List.reverse_append, key, List.reverse_reverse]
        simpa using h4
      · simp only [hc, if_true, hany, if_false]
        simp
    · simp only [hc, if_false]
      simp

theorem splitext_fst_subset {l : List Char} {c : Char} (h : c ∈ (splitext l).1) : c ∈ l := by
  rw [← splitext_append l]
  exact List.mem_append_left _ h

theorem splitext_shape (l : List Char) :
    splitext l = (l, []) ∨
    ((splitext l).1 ≠ [] ∧ (splitext l).1.head? = l.head?) := by
  rw [splitext_eq]
  rcases hd : l.reverse.dropWhile notDotSep with _ | ⟨c, rest2⟩
  · left; rfl
  · by_cases hc : (c == '.') = true
    · by_cases hany :
          ((rest2.takeWhile fun x => !(x == '/')).any fun x => !(x == '.')) = true
      · right
        simp only [hc, if_true, hany]
        have hr2ne : rest2 ≠ [] := by
          intro hnil
          rw [hnil] at hany
          simp at hany
        constructor
        · simpa using hr2ne
        · have key : l.reverse.takeWhile notDotSep ++ (c :: rest2) = l.reverse := by
            rw [← hd]; exact List.takeWhile_append_dropWhile notDotSep l.reverse
          have h4 : (c :: rest2).reverse ++ (l.reverse.takeWhile notDotSep).reverse = l := by
            rw [← List.reverse_append, key, List.reverse_reverse]
          rw [← h4, List.reverse_cons,
            head?_append_left (show rest2.reverse ++ [c] ≠ [] by simp),
            head?_append_left (show rest2.reverse ≠ [] by simpa using hr2ne)]
      · left; simp [hc, hany]
    · left; simp [hc]

theorem splitext_stem_mp4 {st : List Char}
    (hforb : ∀ c ∈ st, forbiddenChar c = false)
    (hany : st.any (fun c => !(c == '.')) = true) :
    splitext (st ++ ".mp4".toList) = (st, ".mp4".toList) := by
  have hrev : (st ++ ".mp4".toList).reverse = '4' :: 'p' :: 'm' :: '.' :: st.reverse := by
    rw [List.reverse_append]
    rfl
  have hdrop : (st ++ ".mp4".toList).reverse.dropWhile notDotSep = '.' :: st.reverse := by
    rw [hrev]
    rfl
  have htake : (st ++ ".mp4".toList).reverse.takeWhile notDotSep = ['4', 'p', 'm'] := by
    rw [hrev]
    rfl
  have htk2 : st.reverse.takeWhile (fun x => !(x == '/')) = st.reverse := by
    apply takeWhile_eq_self_of_all
    intro c hc
    rw [forbiddenChar_no_slash (hforb c (List.mem_reverse.mp hc))]
    rfl
  have hanyrev : (st.reverse.any fun x => !(x == '.')) = true := by
    rw [List.any_reverse]
    exact hany
  rw [splitext_eq, hdrop]
  simp only [htk2, hanyrev, htake, if_true]
  simp

theorem force_mp4_fixed (s : String) (h : (stemOf s).any (fun c => !(c == '.')) = true) :
    force_mp4_name (force_mp4_name s) = force_mp4_name s := by
  obtain ⟨hne, hforb, hhead, hlast⟩ := sanitize_filename_props s
  set st := (splitext (sanitize_filename s).toList).1 with hst
  have hstany : st.any (fun c => !(c == '.')) = true := h
  have hstforb : ∀ c ∈ st, forbiddenChar c = false :=
    fun c hc => hforb c (splitext_fst_subset hc)
  have hstne : st ≠ [] := by
    rcases splitext_shape (sanitize_filename s).toList with hsh | hsh
    · rw [hst, hsh]; exact hne
    · exact hsh.1
  have hsthead : st.head? = (sanitize_filename s).toList.head? := by
    rcases splitext_shape (sanitize_filename s).toList with hsh | hsh
    · rw [hst, hsh]
    · exact hsh.2
  have hfst : force_mp4_name s = String.mk (st ++ ".mp4".toList) := rfl
  have hsan : sanitize_filename (String.mk (st ++ ".mp4".toList)) =
      String.mk (st ++ ".mp4".toList) := by
    apply sanitize_filename_eq_self
    · simp [hstne]
    · intro c hc
      rcases List.mem_append.mp hc with h1 | h1
      · exact hstforb c h1
      · have h2 : c ∈ ['.', 'm', 'p', '4'] := h1
        simp only [List.mem_cons, List.not_mem_nil, or_false] at h2
        rcases h2 with rfl | rfl | rfl | rfl <;> decide
    · intro c hc
      rw [head?_append_left hstne, hsthead] at hc
      exact hhead c hc
    · intro c hc
      rw [List.reverse_append,
        show (".mp4".toList).reverse = '4' :: 'p' :: 'm' :: '.' :: ([] : List Char) from rfl]
        at hc
      have h4 : c = '4' := (Option.some.inj hc).symm
      rw [h4]
      decide
  have hsp : splitext (st ++ ".mp4".toList) = (st, ".mp4".toList) :=
    splitext_stem_mp4 hstforb hstany
  rw [hfst]
  show String.mk
      ((splitext (sanitize_filename (String.mk (st ++ ".mp4".toList))).toList).1
        ++ ".mp4".toList) = String.mk (st ++ ".mp4".toList)
  rw [hsan]
  show String.mk ((splitext (st ++ ".mp4".toList)).1 ++ ".mp4".toList) =
    String.mk (st ++ ".mp4".toList)
  rw [hsp]

theorem percentProgressEvents_cases (o : Option String) :
    percentProgressEvents o = [] ∨
    ∃ n : Nat, n ≤ 100 ∧ percentProgressEvents o = [Event.progress (toString n)] := by
  unfold percentProgressEvents
  rcases hp : parseFloatStr (trimBy pctChar (trimBy wsChar (percentEff o).toList)) with _ | v
  · left; rfl
  · right
    refine ⟨(max 0 (min 100 (truncPyFloat v))).toNat, ?_, rfl⟩
    have h1 : max 0 (min 100 (truncPyFloat v)) ≤ (100 : Int) :=
      max_le (by norm_num) (min_le_left _ _)
    omega

theorem hook_mem_shape {d : HookTick} {e : Event} (h : e ∈ hook d) :
    isDone e = false ∧ isError e = false := by
  unfold hook at h
  by_cases h1 : d.status = some "downloading"
  · rw [if_pos h1] at h
    rcases List.mem_append.mp h with h2 | h2
    · rcases percentProgressEvents_cases d._percent_str with hc | ⟨n, _, hc⟩ <;> rw [hc] at h2
      · simp at h2
      · simp only [List.mem_cons, List.not_mem_nil, or_false] at h2
        rw [h2]; exact ⟨rfl, rfl⟩
    · simp only [List.mem_cons, List.not_mem_nil, or_false] at h2
      rw [h2]; exact ⟨rfl, rfl⟩
  · rw [if_neg h1] at h
    by_cases h2 : d.status = some "finished"
    · rw [if_pos h2] at h
      simp only [List.mem_cons, List.not_mem_nil, or_false] at h
      rcases h with h3 | h3 <;> (rw [h3]; exact ⟨rfl, rfl⟩)
    · rw [if_neg h2] at h; simp at h

theorem hook_progress_payload {d : HookTick} {s : String}
    (h : Event.progress s ∈ hook d) : ∃ n : Nat, n ≤ 100 ∧ s = toString n := by
  unfold hook at h
  by_cases h1 : d.status = some "downloading"
  · rw [if_pos h1] at h
    rcases List.mem_append.mp h with h2 | h2
    · rcases percentProgressEvents_cases d._percent_str with hc | ⟨n, hn, hc⟩ <;> rw [hc] at h2
      · simp at h2
      · simp only [List.mem_cons, List.not_mem_nil, or_false] at h2
        exact ⟨n, hn, by injection h2⟩
    · simp at h2
  · rw [if_neg h1] at h
    by_cases h2 : d.status = some "finished"
    · rw [if_pos h2] at h
      simp only [List.mem_cons, List.not_mem_nil, or_false, Event.progress.injEq] at h
      rcases h with h3 | h3
      · exact ⟨100, by norm_num, by rw [h3]; decide⟩
      · exact absurd h3 (by simp)
    · rw [if_neg h2] at h; simp at h

theorem download_events_shape {ticks : List HookTick} {e : Event}
    (h : e ∈ download_events ticks) : isDone e = false ∧ isError e = false := by
  unfold download_events at h
  rcases List.mem_cons.mp h with h1 | h1
  · rw [h1]; exact ⟨rfl, rfl⟩
  · rcases List.mem_flatten.mp h1 with ⟨l, hl, hel⟩
    rcases List.mem_map.mp hl with ⟨d, _, hld⟩
    exact hook_mem_shape (hld ▸ hel)

theorem drain_append_single (st : AppState) (l : List Event) (e : Event) :
    drain st (l ++ [e]) = apply_event (drain st l) e := by
  simp [drain, List.foldl_append]

theorem pyOrNat_ne_zero_iff (a b : Option Nat) :
    pyOrNat a b ≠ 0 ↔ (a.getD 0 ≠ 0 ∨ b.getD 0 ≠ 0) := by
  cases a with
  | none => simp [pyOrNat]
  | some n =>
    by_cases hn : n = 0
    · subst hn; simp [pyOrNat]
    · simp [pyOrNat, hn]

/-! ## The claims -/

/-- Claim C1: for the path `p` produced by the metadata-resolution step of
`Downloader.download`, the final return value is the sibling path with
extension replaced by `.mp4` when a file exists at that sibling at the
moment of the check, and `p` unchanged otherwise; resolved `a/b.mkv` with
an existing `a/b.mp4` returns `a/b.mp4`, and with no such file returns
`a/b.mkv`. -/
theorem claim_c1_extension_reconciliation (fs : String → Bool) (info : InfoDict)
    (prep : String) :
    (fs (siblingMp4 (resolve_path info prep)) = true →
      download_finalize fs info prep = siblingMp4 (resolve_path info prep)) ∧
    (fs (siblingMp4 (resolve_path info prep)) = false →
      download_finalize fs info prep = resolve_path info prep) ∧
    download_finalize fsOnlyBMp4 infoMkv "t" = "a/b.mp4" ∧
    download_finalize (fun _ => false) infoMkv "t" = "a/b.mkv" := by
  refine ⟨?_, ?_, by decide, by decide⟩
  · intro h; simp [download_finalize, reconcile, h]
  · intro h; simp [download_finalize, reconcile, h]

theorem claim_c1_witness :
    fsOnlyBMp4 (siblingMp4 (resolve_path infoMkv "t")) = true ∧
    download_finalize fsOnlyBMp4 infoMkv "t" = siblingMp4 (resolve_path infoMkv "t") :=
  ⟨by decide, (claim_c1_extension_reconciliation fsOnlyBMp4 infoMkv "t").1 (by decide)⟩

/-- Claim C2: `Downloader.download` resolves the final path in priority
order — (a) the `filepath` of the first element of `requested_downloads`
when that list is non-empty and the field is present and non-empty,
otherwise (b) the top-level `_filename` when present and non-empty,
otherwise (c) the engine's `prepare_filename` result. -/
theorem claim_c2_path_priority (info : InfoDict) (prep : String) :
    (∀ e rest s, info.requested_downloads = e :: rest → e.filepath = some s →
      s.isEmpty = false → resolve_path info prep = s) ∧
    (truthyStr (firstFilepath info) = false →
      ∀ t2, info._filename = some t2 → t2.isEmpty = false → resolve_path info prep = t2) ∧
    (truthyStr (firstFilepath info) = false → truthyStr info._filename = false →
      resolve_path info prep = prep) := by
  refine ⟨?_, ?_, ?_⟩
  · intro e rest s h1 h2 h3
    simp [resolve_path, firstFilepath, h1, h2, truthyStr, h3]
  · intro h1 t2 h2 h3
    have ht : truthyStr (some t2) = true := by simp [truthyStr, h3]
    simp [resolve_path, h1, h2, ht]
  · intro h1 h2
    simp [resolve_path, h1, h2]

theorem claim_c2_witness : resolve_path infoMkv "p" = "a/b.mkv" :=
  (claim_c2_path_priority infoMkv "p").1 { filepath := some "a/b.mkv" } [] "a/b.mkv"
    rfl rfl (by decide)

/-- Claim C3, counterexample: the claim says the hook strips *a trailing*
`%` and that a percent string whose stripped form fails to parse yields no
`Progress` event for that tick.  For the tick with `_percent_str = "%50%"`
the trailing-strip form `"%50"` does not parse as a real number — so under
the claim no `Progress` event may be emitted — yet the source's
`str.strip("%")` strips the leading `%` as well and the hook emits
`Progress("50")`. -/
theorem claim_c3_counterexample :
    parseFloatStr (stripOneTrailingPct (trimBy wsChar "%50%".toList)) = none ∧
    hook tickPct5050 = [Event.progress "50", Event.log "0 B"] :=
  ⟨by decide, by decide⟩

/-- Claim C3 as amended: on a "downloading" tick the hook strips leading
and trailing `%` characters (not just one trailing `%`) from the
whitespace-trimmed percent string, parses it as a real number, truncates,
and clamps to `[0,100]`; every emitted `Progress` payload is a decimal
integer in `[0,100]`; `"150%"` yields `100`, `"-5%"` yields `0`, and a
non-parsing string such as `"abc%"` yields no `Progress` event and no
error (the hook still returns its log event). -/
theorem claim_c3_amended :
    (∀ (d : HookTick) (s : String), Event.progress s ∈ hook d →
      ∃ n : Nat, n ≤ 100 ∧ s = toString n) ∧
    hook tick150 = [Event.progress "100", Event.log "0 B"] ∧
    hook tickNeg5 = [Event.progress "0", Event.log "0 B"] ∧
    hook tickAbc = [Event.log "0 B"] :=
  ⟨fun _ _ h => hook_progress_payload h, by decide, by decide, by decide⟩

theorem claim_c3_amended_witness : ∃ n : Nat, n ≤ 100 ∧ "100" = toString n :=
  claim_c3_amended.1 tick150 "100" (by decide)

/-- Claim C4, counterexample: `force_mp4_name` is *not* idempotent on
every string.  For `"."` the sanitized name is `"."`, `splitext` refuses
to split a leading-dots-only name, so the first application yields
`"..mp4"`; on `"..mp4"` the stem before the last dot is again all dots, so
the second application yields `"..mp4.mp4" ≠ "..mp4"`. -/
theorem claim_c4_counterexample :
    force_mp4_name (force_mp4_name ".") ≠ force_mp4_name "." := by decide

/-- Claim C4 as amended: `force_mp4_name` applies `sanitize_filename`,
strips the extension and appends `.mp4`; `"clip.mkv"` gives `"clip.mp4"`
and `""` gives `"video.mp4"`; and it is idempotent on every string whose
sanitized stem contains at least one character other than `'.'` (the
counterexample `"."` shows the all-dots stems must be excluded). -/
theorem claim_c4_amended :
    (∀ s : String, (stemOf s).any (fun c => !(c == '.')) = true →
      force_mp4_name (force_mp4_name s) = force_mp4_name s) ∧
    force_mp4_name "clip.mkv" = "clip.mp4" ∧
    force_mp4_name "" = "video.mp4" :=
  ⟨fun s h => force_mp4_fixed s h, by decide, by decide⟩

theorem claim_c4_amended_witness :
    ((stemOf "clip.mkv").any (fun c => !(c == '.')) = true) ∧
    force_mp4_name (force_mp4_name "clip.mkv") = force_mp4_name "clip.mkv" :=
  ⟨by decide, claim_c4_amended.1 "clip.mkv" (by decide)⟩

/-- Claim C5: `human_size` uses base-1024 scaling over `B,KB,MB,GB,TB,PB`
with zero decimal places; `human_size 0 = "0 B"`, `human_size 1023 =
"1023 B"`, `human_size 1024 = "1 KB"`, and at every power-of-1024
threshold up to PB the input just below the threshold renders in the
smaller unit while the threshold itself renders as `1` of the larger
unit. -/
theorem claim_c5_human_size :
    human_size 0 = "0 B" ∧ human_size 1023 = "1023 B" ∧ human_size 1024 = "1 KB" ∧
    (∃ m : Nat, human_size (1024 ^ 2 - 1) = toString m ++ " KB") ∧
    human_size (1024 ^ 2) = "1 MB" ∧
    (∃ m : Nat, human_size (1024 ^ 3 - 1) = toString m ++ " MB") ∧
    human_size (1024 ^ 3) = "1 GB" ∧
    (∃ m : Nat, human_size (1024 ^ 4 - 1) = toString m ++ " GB") ∧
    human_size (1024 ^ 4) = "1 TB" ∧
    (∃ m : Nat, human_size (1024 ^ 5 - 1) = toString m ++ " TB") ∧
    human_size (1024 ^ 5) = "1 PB" :=
  ⟨by decide, by decide, by decide, ⟨1024, by decide⟩, by decide, ⟨1024, by decide⟩,
    by decide, ⟨1024, by decide⟩, by decide, ⟨1024, by decide⟩, by decide⟩

/-- Claim C6: `sanitize_filename` replaces the forbidden characters
`\ / * ? : " < > |` with `_`, trims surrounding whitespace, and falls back
to `"video"` when empty; `"a/b:c*d"` gives `"a_b_c_d"`, `"   "` gives
`"video"`, and for every input the result is non-empty and contains no
forbidden character. -/
theorem claim_c6_sanitize :
    sanitize_filename "a/b:c*d" = "a_b_c_d" ∧
    sanitize_filename "   " = "video" ∧
    ∀ s : String, sanitize_filename s ≠ "" ∧
      ∀ c ∈ (sanitize_filename s).toList, forbiddenChar c = false := by
  refine ⟨by decide, by decide, fun s => ⟨?_, (sanitize_filename_props s).2.1⟩⟩
  intro heq
  apply (sanitize_filename_props s).1
  rw [heq]
  rfl

theorem claim_c6_witness :
    sanitize_filename "a/b:c*d" ≠ "" ∧ forbiddenChar 'a' = false :=
  ⟨(claim_c6_sanitize.2.2 "a/b:c*d").1,
    (claim_c6_sanitize.2.2 "a/b:c*d").2 'a' (by decide)⟩

/-- Claim C7: invoking `_start_download` while `_downloading` is true
rejects synchronously with the "already downloading" notice and performs
no work — the state (transcript, progress bar, busy flag) is returned
unchanged, no worker is spawned and no request is produced or queued. -/
theorem claim_c7_busy_guard (st : AppState) (u o n : String)
    (h : st.downloading = true) :
    start_download st u o n = (st, StartResult.busyRejected) := by
  simp [start_download, h]

theorem claim_c7_witness :
    start_download stBusy "u" "o" "n" = (stBusy, StartResult.busyRejected) :=
  claim_c7_busy_guard stBusy "u" "o" "n" rfl

/-- Claim C8: for an accepted start, a successful engine invocation makes
the worker emit exactly one `done` event carrying the resolved output
path (and no `error`), and draining the queue leaves `busy = false` and
progress at `100`; a raising invocation makes it emit exactly one `error`
event carrying the message (and no `done`), and draining leaves
`busy = false`. -/
theorem claim_c8_worker_events :
    (∀ (fs : String → Bool) (ticks : List HookTick) (info : InfoDict) (prep : String)
        (st : AppState), st.downloading = true →
      (worker_model fs (EngineOutcome.ok ticks info prep)).filter isDone
        = [Event.done (download_finalize fs info prep)] ∧
      (worker_model fs (EngineOutcome.ok ticks info prep)).filter isError = [] ∧
      (drain st (worker_model fs (EngineOutcome.ok ticks info prep))).downloading = false ∧
      (drain st (worker_model fs (EngineOutcome.ok ticks info prep))).pbValue = 100) ∧
    (∀ (fs : String → Bool) (pre : List Event) (msg : String) (st : AppState),
      (∀ e ∈ pre, isDone e = false ∧ isError e = false) → st.downloading = true →
      (worker_model fs (EngineOutcome.fail pre msg)).filter isError = [Event.error msg] ∧
      (worker_model fs (EngineOutcome.fail pre msg)).filter isDone = [] ∧
      (drain st (worker_model fs (EngineOutcome.fail pre msg))).downloading = false) := by
  constructor
  · intro fs ticks info prep st _
    have hfd : (download_events ticks).filter isDone = [] :=
      List.filter_eq_nil_iff.mpr
        (fun e he => by simp [(download_events_shape he).1])
    have hfe : (download_events ticks).filter isError = [] :=
      List.filter_eq_nil_iff.mpr
        (fun e he => by simp [(download_events_shape he).2])
    have hwm : worker_model fs (EngineOutcome.ok ticks info prep) =
        download_events ticks ++ [Event.done (download_finalize fs info prep)] := rfl
    refine ⟨?_, ?_, ?_, ?_⟩
    · rw [hwm, List.filter_append, hfd]; rfl
    · rw [hwm, List.filter_append, hfe]; rfl
    · rw [hwm, drain_append_single]; rfl
    · rw [hwm, drain_append_single]; rfl
  · intro fs pre msg st hpre _
    have hfd : pre.filter isDone = [] :=
      List.filter_eq_nil_iff.mpr (fun e he => by simp [(hpre e he).1])
    have hfe : pre.filter isError = [] :=
      List.filter_eq_nil_iff.mpr (fun e he => by simp [(hpre e he).2])
    have hwm : worker_model fs (EngineOutcome.fail pre msg) =
        pre ++ [Event.error msg] := rfl
    refine ⟨?_, ?_, ?_⟩
    · rw [hwm, List.filter_append, hfe]; rfl
    · rw [hwm, List.filter_append, hfd]; rfl
    · rw [hwm, drain_append_single]; rfl

theorem claim_c8_witness :
    (worker_model (fun _ => false) (EngineOutcome.ok [] infoMkv "p")).filter isDone
      = [Event.done (download_finalize (fun _ => false) infoMkv "p")] ∧
    (drain stBusy (worker_model (fun _ => false) (EngineOutcome.ok [] infoMkv "p"))).downloading
      = false ∧
    (drain stBusy (worker_model (fun _ => false) (EngineOutcome.ok [] infoMkv "p"))).pbValue
      = 100 := by
  obtain ⟨h1, _, h3, h4⟩ :=
    claim_c8_worker_events.1 (fun _ => false) [] infoMkv "p" stBusy rfl
  exact ⟨h1, h3, h4⟩

/-- Claim C9: a "downloading" tick with no `_percent_str` entry is not
dropped — the hook substitutes the default `"0%"` and emits
`Progress("0")` (followed by its usual log event). -/
theorem claim_c9_default_percent (d : HookTick) (h1 : d.status = some "downloading")
    (h2 : d._percent_str = none) :
    hook d = [Event.progress "0", Event.log (tickLogMsg d)] := by
  unfold hook
  rw [if_pos h1, h2]
  have hp : percentProgressEvents none = [Event.progress "0"] := by decide
  rw [hp]
  rfl

theorem claim_c9_witness :
    hook tickNoPct = [Event.progress "0", Event.log (tickLogMsg tickNoPct)] :=
  claim_c9_default_percent tickNoPct rfl rfl

/-- Claim C10: every "downloading" tick emits exactly one `log` event —
even when percent parsing failed — whose text is the human-readable
downloaded size, with the `" / <total>"` suffix appended iff
`total_bytes` (or, failing that, `total_bytes_estimate`) is present and
nonzero, and an absent `downloaded_bytes` renders as `"0 B"`. -/
theorem claim_c10_log_every_tick (d : HookTick) (h : d.status = some "downloading") :
    (hook d).filter isLog = [Event.log (tickLogMsg d)] ∧
    ((hook d).filter isLog).length = 1 ∧
    (d.downloaded_bytes = none → human_size (d.downloaded_bytes.getD 0) = "0 B") ∧
    (∀ a b : Option Nat, pyOrNat a b ≠ 0 ↔ (a.getD 0 ≠ 0 ∨ b.getD 0 ≠ 0)) := by
  have hfl : (percentProgressEvents d._percent_str).filter isLog = [] := by
    rcases percentProgressEvents_cases d._percent_str with hc | ⟨n, _, hc⟩ <;> rw [hc] <;> rfl
  have h1 : (hook d).filter isLog = [Event.log (tickLogMsg d)] := by
    unfold hook
    rw [if_pos h, List.filter_append, hfl]
    rfl
  refine ⟨h1, by rw [h1]; rfl, ?_, pyOrNat_ne_zero_iff⟩
  intro hd
  rw [hd]
  decide

theorem claim_c10_witness :
    (hook tickAbc).filter isLog = [Event.log (tickLogMsg tickAbc)] ∧
    human_size (tickAbc.downloaded_bytes.getD 0) = "0 B" := by
  obtain ⟨h1, _, h3, _⟩ := claim_c10_log_every_tick tickAbc rfl
  exact ⟨h1, h3 rfl⟩

end VideoDownloader
